import Mathlib

/-!
Verification development for the query-serving and streaming orchestration
layer of a retrieval-augmented generation server.

The Lean definitions below are a shallow embedding of the Python source:

* `app/core/runtime.py`        — `_norm_event`, `Runtime.handle_query`,
                                 `Runtime.handle_query_stream` (producer/consumer)
* `app/core/session_manager.py`— `SessionCache`, `SessionManager`
* `app/services/generation.py` — `_strip_think`, `_apply_reveal_from_filter`,
                                 `RevealFromBuffer`, `sglang_stream`, `build_context`
* `app/services/query_repair.py`— `_parse_repair_output`, `repair_query`
* `app/core/models.py`         — `RepairContext`, `QueryRequest`

Modelling conventions:
* Python strings are Lean `String`s; character-level operations work on
  `String.data : List Char`.  Python `str.strip()` strips the six ASCII
  whitespace characters (Unicode whitespace in the source never occurs in the
  inputs of interest and is ignored).
* Wall-clock timestamps / float timings are abstracted: a `ttft` payload is
  represented by the opaque `Payload.num`, and the timing dictionaries carried
  by `done` payloads are dropped (no claim concerns timing values).
* Blocking network calls (`OpenAI` client, retriever) are modelled by
  explicit parameters that supply the outcome of the call.
* `asyncio.run_coroutine_threadsafe(queue.put ..)` calls issued from the single
  producer thread reach the queue in call order, so the queue content is
  modelled as the list of enqueued items in program order.
-/

/-- ASCII whitespace set of Python `str.strip` / regex `\s`
(space, tab, newline, carriage return, vertical tab, form feed). -/
def pyIsSpace (c : Char) : Bool :=
  c = ' ' || c = '\t' || c = '\n' || c = '\r' || c = '\x0b' || c = '\x0c'

/-- Python `str.strip()` on a character list. -/
def pyStripL (l : List Char) : List Char :=
  ((l.dropWhile pyIsSpace).reverse.dropWhile pyIsSpace).reverse

/-- Python `str.strip()`. -/
def pyStrip (s : String) : String :=
  ⟨pyStripL s.data⟩

/-- Python `str.lower()`, character-wise. -/
def pyLower (s : String) : String :=
  ⟨s.data.map Char.toLower⟩

/-- `startsWithL l p` : `p` is a literal prefix of `l`. -/
def startsWithL : List Char → List Char → Bool
  | _, [] => true
  | [], _ :: _ => false
  | c :: cs, p :: ps => c = p && startsWithL cs ps

/-- Case-insensitive variant of `startsWithL`: the pattern `p` is given in
lower case and the text side is lowered character-wise. -/
def startsWithCIL : List Char → List Char → Bool
  | _, [] => true
  | [], _ :: _ => false
  | c :: cs, p :: ps => c.toLower = p && startsWithCIL cs ps

/-- Python substring test `p in l` (an empty pattern occurs everywhere). -/
def occursInL (p : List Char) : List Char → Bool
  | [] => p.isEmpty
  | c :: cs => startsWithL (c :: cs) p || occursInL p cs

/-- The character suffix after the first occurrence of `p`, if `p` occurs. -/
def afterFirstL (p : List Char) : List Char → Option (List Char)
  | [] => if p.isEmpty then some [] else none
  | c :: cs =>
    if startsWithL (c :: cs) p then some (List.drop p.length (c :: cs))
    else afterFirstL p cs

/-- The character suffix after the first case-insensitive occurrence of the
(lower-case) pattern `p`, if it occurs.  Used for `re.search` on a literal
pattern with `re.IGNORECASE`. -/
def dropThroughCIL (p : List Char) : List Char → Option (List Char)
  | [] => if p.isEmpty then some [] else none
  | c :: cs =>
    if startsWithCIL (c :: cs) p then some (List.drop p.length (c :: cs))
    else dropThroughCIL p cs

/-- Python `s.split(sep)` for a non-empty separator `sep` (left-to-right,
non-overlapping, empty parts kept).  Structural recursion on an explicit fuel
so that the definition evaluates by kernel reduction; the wrapper `pySplit`
supplies sufficient fuel.  With an empty separator Python raises; here the
whole remainder is returned as a single part. -/
def pySplitFuelL (p : List Char) : Nat → List Char → List (List Char)
  | 0, l => [l]
  | _ + 1, [] => [[]]
  | fuel + 1, c :: cs =>
    if !p.isEmpty && startsWithL (c :: cs) p then
      [] :: pySplitFuelL p fuel (List.drop p.length (c :: cs))
    else
      match pySplitFuelL p fuel cs with
      | [] => [[c]]
      | h :: t => (c :: h) :: t

/-- Python `s.split(sep)` (full split) for non-empty `sep`. -/
def pySplit (s sep : String) : List String :=
  (pySplitFuelL sep.data (s.data.length + 1) s.data).map (fun l => ⟨l⟩)

/-! ## Event Normalizer — `app/core/runtime.py`, `_norm_event` -/

/-- `_norm_event` from `runtime.py`.  A Python `None` event label is modelled
by the empty string (the source first replaces `None` by `""`). -/
def normEvent (ev : String) : String :=
  let e := pyLower ev
  if e = "delta" || e = "text" || e = "token" || e = "message" then "content"
  else if e = "thought" || e = "chain_of_thought" || e = "cot" || e = "reasoning" then
    "reasoning"
  else if e = "first_token" || e = "ttft" then "ttft"
  else if e = "end" || e = "complete" || e = "completion" || e = "done" then "done"
  else if e = "" then "content"
  else e

/-! ## Reveal Filter — `app/services/generation.py` -/

/-- Streaming reveal buffer (`RevealFromBuffer` in `generation.py`). -/
structure RevealFromBuffer where
  token : String
  buffer : String
  revealed : Bool
deriving Repr, DecidableEq

/-- `RevealFromBuffer.__init__(token)`. -/
def RevealFromBuffer.init (token : String) : RevealFromBuffer :=
  { token := token, buffer := "", revealed := false }

/-- `RevealFromBuffer.add(chunk)`: returns the updated buffer state and the
emitted text.  `self.buffer.split(self.token, 1)[1]` is the suffix after the
first occurrence of the token. -/
def RevealFromBuffer.add (self : RevealFromBuffer) (chunk : String) :
    RevealFromBuffer × String :=
  if self.revealed then (self, chunk)
  else
    let buf := self.buffer ++ chunk
    if occursInL self.token.data buf.data then
      let emitted : String := ⟨(afterFirstL self.token.data buf.data).getD []⟩
      ({ self with buffer := "", revealed := true }, emitted)
    else
      ({ self with buffer := buf }, "")

/-- `_apply_reveal_from_filter(text, token, fallback)` from `generation.py`.
`revealEnabled` is the global `C.REVEAL_FROM_ENABLED` read inside the
function.  When the token occurs, the source returns
`text.split(token)[-1].strip()` — the stripped suffix after the LAST
occurrence.  The `after_think_tag` fallback models
`re.search(r"</think>\s*(.*)", text, DOTALL | IGNORECASE)` followed by
`.group(1).strip()`: the stripped suffix after the first case-insensitive
`</think>`. -/
def applyRevealFromFilter (revealEnabled : Bool) (text token fallback : String) :
    String :=
  if !revealEnabled then text
  else if occursInL token.data text.data then
    pyStrip ((pySplit text token).getLastD "")
  else if fallback = "empty" then ""
  else if fallback = "after_think_tag" then
    match dropThroughCIL "</think>".data text.data with
    | some rest => pyStrip ⟨rest⟩
    | none => text
  else text

/-! ## `_strip_think` — `app/services/generation.py` -/

/-- One attempt to match the regex `\s*<think>.*?</think>\s*`
(`DOTALL | IGNORECASE`) at the head of `l`; on success returns the remainder
after the match.  The leading `\s*` may be taken maximally because `<` is not
whitespace, and the lazy `.*?` stops at the first `</think>`. -/
def tryMatchThinkL (l : List Char) : Option (List Char) :=
  let rest := l.dropWhile pyIsSpace
  if startsWithCIL rest "<think>".data then
    match dropThroughCIL "</think>".data (rest.drop "<think>".data.length) with
    | some r => some (r.dropWhile pyIsSpace)
    | none => none
  else none

/-- `re.sub(r"\s*<think>.*?</think>\s*", "", s)`: scan left to right, removing
each non-overlapping match.  Fuel-structural; a successful match always
consumes at least the literal `<think></think>`, so `l.length + 1` fuel
suffices. -/
def stripThinkAuxL : Nat → List Char → List Char
  | 0, l => l
  | _ + 1, [] => []
  | fuel + 1, c :: cs =>
    match tryMatchThinkL (c :: cs) with
    | some rest => stripThinkAuxL fuel rest
    | none => c :: stripThinkAuxL fuel cs

/-- `_strip_think` from `generation.py`. -/
def stripThink (s : String) : String :=
  if s = "" then s
  else pyStrip ⟨stripThinkAuxL (s.data.length + 1) s.data⟩

/-! ## `sglang_stream` — `app/services/generation.py`

The OpenAI streaming call is abstracted to the list of deltas it yields; each
delta carries the optional `reasoning_content` and `content` attributes.
Timing floats are abstracted (`Payload.num` for the `ttft` value, and the
timing dictionary of the `done` payload is dropped). -/

/-- Payload of a yielded/enqueued event.  `doneObj` is `sglang_stream`'s final
payload (answer and reasoning text; timing abstracted), `timingObj` the
producer's terminal `done` payload, `errObj` the producer's error payload. -/
inductive Payload where
  | text (s : String)
  | num
  | doneObj (answer reasoning : String)
  | timingObj
  | errObj (msg : String)
deriving Repr, DecidableEq

/-- The configuration globals read by `sglang_stream`. -/
structure GenConfig where
  revealEnabled : Bool
  revealToken : String
  revealFallback : String
  enableThinking : Bool
deriving Repr

/-- One streamed chunk's delta (`chunk.choices[0].delta`). -/
structure Delta where
  reasoningContent : Option String
  content : Option String
deriving Repr, DecidableEq

/-- Loop state of `sglang_stream`: the reveal buffer (present iff
`REVEAL_FROM_ENABLED`), whether the first content token was seen
(`first_content is not None`), and the accumulated answer/reasoning parts. -/
structure GenState where
  revealBuf : Option RevealFromBuffer
  firstContent : Bool
  answerParts : List String
  reasonParts : List String
deriving Repr, DecidableEq

/-- State of `sglang_stream` before the first chunk. -/
def initGenState (cfg : GenConfig) : GenState :=
  { revealBuf := if cfg.revealEnabled then some (RevealFromBuffer.init cfg.revealToken) else none
    firstContent := false
    answerParts := []
    reasonParts := [] }

/-- Python truthiness of an `Optional[str]`. -/
def pyTruthyStr : Option String → Bool
  | none => false
  | some s => s ≠ ""

/-- The `content` branch tail of the `sglang_stream` loop: yield `ttft` at the
first content token, then yield the content and accumulate it. -/
def emitContent (st : GenState) (c : String) : GenState × List (String × Payload) :=
  if st.firstContent then
    ({ st with answerParts := st.answerParts ++ [c] }, [("content", Payload.text c)])
  else
    ({ st with firstContent := true, answerParts := st.answerParts ++ [c] },
      [("ttft", Payload.num), ("content", Payload.text c)])

/-- The `if rcontent:` branch of the `sglang_stream` loop body: yield the
reasoning event and accumulate it (`rcontent` is truthy when it is a
non-empty string). -/
def sglangStepReason (st : GenState) (d : Delta) : GenState × List (String × Payload) :=
  match d.reasoningContent with
  | some r =>
    if r ≠ "" then
      ({ st with reasonParts := st.reasonParts ++ [r] }, [("reasoning", Payload.text r)])
    else (st, [])
  | none => (st, [])

/-- The `if content:` branch of the `sglang_stream` loop body, with the
reveal filter (an empty filtered string `continue`s, withholding the
chunk). -/
def sglangStepContent (st : GenState) (d : Delta) : GenState × List (String × Payload) :=
  match d.content with
  | some c =>
    if c ≠ "" then
      match st.revealBuf with
      | some buf =>
        let bufOut := buf.add c
        let stb := { st with revealBuf := some bufOut.1 }
        if bufOut.2 = "" then (stb, [])
        else emitContent stb bufOut.2
      | none => emitContent st c
    else (st, [])
  | none => (st, [])

/-- One iteration of the `for chunk in stream` loop of `sglang_stream`:
the `reasoning_content` branch followed by the `content` branch. -/
def sglangStep (st : GenState) (d : Delta) : GenState × List (String × Payload) :=
  let stEv1 := sglangStepReason st d
  let stEv2 := sglangStepContent stEv1.1 d
  (stEv2.1, stEv1.2 ++ stEv2.2)

/-- The whole `for` loop of `sglang_stream`, returning the final state and the
yielded events in order. -/
def sglangRun (st : GenState) : List Delta → GenState × List (String × Payload)
  | [] => (st, [])
  | d :: ds =>
    let stEv := sglangStep st d
    let stRest := sglangRun stEv.1 ds
    (stRest.1, stEv.2 ++ stRest.2)

/-- The epilogue of `sglang_stream`: the `empty`-fallback clearing of
`answer_parts`, the `_strip_think` post-processing when thinking is off, and
the final `done` event. -/
def sglangFinish (cfg : GenConfig) (st : GenState) : String × Payload :=
  let notRevealed :=
    match st.revealBuf with
    | some b => !b.revealed
    | none => false
  let answerParts :=
    if notRevealed && cfg.revealFallback = "empty" then [] else st.answerParts
  let answer := String.join answerParts
  let reasoning := String.join st.reasonParts
  if !cfg.enableThinking then ("done", Payload.doneObj (stripThink answer) "")
  else ("done", Payload.doneObj answer reasoning)

/-- All events yielded by `sglang_stream` on a given delta list. -/
def sglangEvents (cfg : GenConfig) (deltas : List Delta) : List (String × Payload) :=
  let stEvs := sglangRun (initGenState cfg) deltas
  stEvs.2 ++ [sglangFinish cfg stEvs.1]

/-! ## Stream Bridge — `app/core/runtime.py`, `Runtime.handle_query_stream` -/

/-- An item placed on the `asyncio.Queue`: a `(kind, payload)` event or the
`None` close marker. -/
inductive QItem where
  | ev (kind : String) (payload : Payload)
  | close
deriving Repr, DecidableEq

/-- The `for raw_event, data in sglang_stream(...)` loop body of `_producer`:
normalize the label, duplicate a reasoning event into the content channel
when `STREAM_COMPAT_DUP_CONTENT` is set (before the event itself), enqueue
the normalized event, and track `sent_content`.  Returns the enqueued items
and the final `sent_content` flag. -/
def producerLoop (dup : Bool) : List (String × Payload) → Bool → List QItem × Bool
  | [], sent => ([], sent)
  | (raw, data) :: rest, sent =>
    let e := normEvent raw
    let dupItems := if e = "reasoning" && dup then [QItem.ev "content" data] else []
    let sent1 := sent || e = "content" || (e = "reasoning" && dup)
    let tailOut := producerLoop dup rest sent1
    (dupItems ++ [QItem.ev e data] ++ tailOut.1, tailOut.2)

/-- The full `_producer` body: the loop over the generator events (a prefix
when the generation call raises mid-stream, with `raised` the exception
message), the post-loop empty-content compatibility event (skipped when an
exception was raised), the `except` branch's single error event, and the
`finally` branch's terminal `done` event followed by the close marker. -/
def producerItems (dup : Bool) (events : List (String × Payload))
    (raised : Option String) : List QItem :=
  let loopOut := producerLoop dup events false
  let mid :=
    match raised with
    | some m => [QItem.ev "error" (Payload.errObj m)]
    | none => if !loopOut.2 && dup then [QItem.ev "content" (Payload.text "")] else []
  loopOut.1 ++ mid ++ [QItem.ev "done" Payload.timingObj, QItem.close]

/-- The consumer loop of `handle_query_stream`: dequeue and yield until the
close marker. -/
def consumeStream : List QItem → List (String × Payload)
  | [] => []
  | QItem.close :: _ => []
  | QItem.ev k p :: rest => (k, p) :: consumeStream rest

/-- Number of events of a given kind in a delivered event sequence. -/
def countKind (k : String) (l : List (String × Payload)) : Nat :=
  (l.filter (fun e => e.1 = k)).length

/-- `ttftBeforeContentL seen kinds` holds when every `content` kind in `kinds`
is preceded by some `ttft` kind (`seen` records whether a `ttft` was already
emitted earlier). -/
def ttftBeforeContentL (seen : Bool) : List String → Bool
  | [] => true
  | k :: ks =>
    if k = "content" && !seen then false
    else ttftBeforeContentL (seen || k = "ttft") ks

/-! ## Session Store — `app/core/session_manager.py`

Time is modelled as a `Nat` number of hours since some epoch (`datetime.now()`
at an operation is the `now` parameter).  The filesystem is modelled by the
set of existing per-session cache directories (`dirs`) and the
`session_meta.json` contents (`metas`); `shutil.rmtree` removes both.  The
opaque `VectorStoreIndex` / `TextNode` collaborator objects are represented
by `Unit` tokens. -/

/-- Contents of a persisted `session_meta.json`. -/
structure SessionMeta where
  summaryAll : String
  recent5 : String
  updatedAt : Nat
deriving Repr, DecidableEq

/-- `SessionCache` from `session_manager.py` (the `cache_dir`/`meta_path`
strings are determined by `sessionId`, so they are not repeated here). -/
structure SessionCache where
  sessionId : Int
  summaryAll : String
  summaryRecent5 : String
  updatedAt : Option Nat
  index : Option Unit
  bm25Nodes : List Unit
deriving Repr, DecidableEq

/-- `SessionCache.__init__`. -/
def newSessionCache (id : Int) : SessionCache :=
  { sessionId := id, summaryAll := "", summaryRecent5 := "", updatedAt := none
    index := none, bm25Nodes := [] }

/-- In-memory `SessionManager` state together with the filesystem it owns.
`cache` is the `OrderedDict` with the least-recently-used entry first. -/
structure SessionStore where
  cache : List (Int × SessionCache)
  dirs : List Int
  metas : List (Int × SessionMeta)
  maxSessions : Nat
  ttlHours : Int
deriving Repr, DecidableEq

/-- `os.makedirs(cache_dir, exist_ok=True)`. -/
def insertDir (dirs : List Int) (id : Int) : List Int :=
  if dirs.contains id then dirs else dirs ++ [id]

/-- Write/replace the `session_meta.json` entry for `id`. -/
def setMeta (metas : List (Int × SessionMeta)) (id : Int) (m : SessionMeta) :
    List (Int × SessionMeta) :=
  (metas.filter (fun p => p.1 ≠ id)) ++ [(id, m)]

/-- `SessionCache.load_meta`. -/
def loadMeta (st : SessionStore) (c : SessionCache) : SessionCache :=
  match st.metas.lookup c.sessionId with
  | some m =>
    { c with summaryAll := m.summaryAll, summaryRecent5 := m.recent5
             updatedAt := some m.updatedAt }
  | none => c

/-- `SessionCache.save_meta` at time `now`: creates the directory, writes the
metadata, and refreshes `updated_at`. -/
def saveMeta (st : SessionStore) (c : SessionCache) (now : Nat) :
    SessionStore × SessionCache :=
  ({ st with
      dirs := insertDir st.dirs c.sessionId
      metas := setMeta st.metas c.sessionId
        ⟨c.summaryAll, c.summaryRecent5, now⟩ },
    { c with updatedAt := some now })

/-- `self._cache[id] = cache` followed by `self._cache.move_to_end(id)`:
the entry for `id` is (re)bound and becomes most recently used. -/
def cacheInsertMRU (cache : List (Int × SessionCache)) (id : Int)
    (c : SessionCache) : List (Int × SessionCache) :=
  (cache.filter (fun p => p.1 ≠ id)) ++ [(id, c)]

/-- The `while len(self._cache) > self.max_sessions: popitem(last=False)` loop
of `_evict_lru`, returning the evicted ids (front-first) and the surviving
entries. -/
def evictFront (maxS : Nat) : List (Int × SessionCache) →
    List Int × List (Int × SessionCache)
  | [] => ([], [])
  | (id, c) :: rest =>
    if rest.length + 1 > maxS then
      let out := evictFront maxS rest
      (id :: out.1, out.2)
    else ([], (id, c) :: rest)

/-- `SessionManager._evict_lru`: evict least-recently-used entries while over
capacity, deleting their persisted artifacts (`shutil.rmtree`). -/
def evictLRU (st : SessionStore) : SessionStore :=
  let out := evictFront st.maxSessions st.cache
  { st with
      cache := out.2
      dirs := st.dirs.filter (fun d => !out.1.contains d)
      metas := st.metas.filter (fun p => !out.1.contains p.1) }

/-- `SessionManager._evict_expired` at time `now`. -/
def evictExpired (st : SessionStore) (now : Nat) : SessionStore :=
  if st.ttlHours ≤ 0 then st
  else
    let expired := (st.cache.filter (fun p =>
      match p.2.updatedAt with
      | some t => (now : Int) - (t : Int) > st.ttlHours
      | none => false)).map Prod.fst
    { st with
        cache := st.cache.filter (fun p => !expired.contains p.1)
        dirs := st.dirs.filter (fun d => !expired.contains d)
        metas := st.metas.filter (fun p => !expired.contains p.1) }

/-- `SessionManager.init_session`. -/
def initSession (st : SessionStore) (id : Int) (now : Nat) :
    SessionStore × SessionCache :=
  let st1 := { st with dirs := insertDir st.dirs id }
  let out := saveMeta st1 (newSessionCache id) now
  let st2 := { out.1 with cache := cacheInsertMRU out.1.cache id out.2 }
  (evictLRU st2, out.2)

/-- `SessionManager.get_or_create`: cached entry → refresh recency; existing
cache directory → reconstruct from persisted metadata and insert as most
recently used (note: no capacity eviction on this path); otherwise
`init_session`. -/
def getOrCreate (st : SessionStore) (id : Int) (now : Nat) :
    SessionStore × SessionCache :=
  match st.cache.lookup id with
  | some c => ({ st with cache := cacheInsertMRU st.cache id c }, c)
  | none =>
    if st.dirs.contains id then
      let c := loadMeta st (newSessionCache id)
      ({ st with cache := cacheInsertMRU st.cache id c }, c)
    else initSession st id now

/-- `SessionManager.update_session` (the `index`/`bm25_nodes` arguments are
guarded by Python truthiness: a `None` index and an empty node list are
ignored). -/
def updateSession (st : SessionStore) (id : Int)
    (summaryAll summaryRecent5 : String) (index : Option Unit)
    (bm25 : Option (List Unit)) (now : Nat) : SessionStore :=
  let out := getOrCreate st id now
  let c1 := { out.2 with summaryAll := summaryAll, summaryRecent5 := summaryRecent5 }
  let c2 := match index with
    | some ix => { c1 with index := some ix }
    | none => c1
  let c3 := match bm25 with
    | some bs => if bs ≠ [] then { c2 with bm25Nodes := bs } else c2
    | none => c2
  let out2 := saveMeta out.1 c3 now
  let st2 := { out2.1 with cache := cacheInsertMRU out2.1.cache id out2.2 }
  evictExpired st2 now

/-! ## Query Repair — `app/services/query_repair.py` and `app/core/models.py` -/

/-- `RepairContext` from `models.py` (all list fields default to `[]`). -/
structure RepairContext where
  corrections : List String
  questions : List String
  improvedQuery : String
  assumptions : List String
deriving Repr, DecidableEq

/-- `RepairContext(improved_query=q)` with the default empty lists — the
"identity" repair result. -/
def repairIdentity (q : String) : RepairContext :=
  { corrections := [], questions := [], improvedQuery := q, assumptions := [] }

/-- The lazy group of `marker:(.*?)(?=stop1|stop2|…|$)` (`re.DOTALL`): the
shortest prefix of the text after the marker at whose end one of the stop
markers starts, or the whole remainder when no stop marker occurs (`$`).
(Python `$` may also match just before a trailing newline; the difference is
erased by the `.strip()` every caller applies to the capture.) -/
def captureUntilL (stops : List (List Char)) : List Char → List Char
  | [] => []
  | c :: cs =>
    if stops.any (fun p => startsWithL (c :: cs) p) then []
    else c :: captureUntilL stops cs

/-- The `for line in group.strip().split('\n'): if line.strip().startswith('-')`
extraction used for the corrections and assumptions sections. -/
def dashLines (capture : String) : List String :=
  (pySplit (pyStrip capture) "\n").filterMap (fun line =>
    let l := pyStrip line
    if startsWithL l.data ['-'] then some (pyStrip ⟨l.data.drop 1⟩) else none)

/-- `re.match(r'^\d+\)', l)` followed by `re.sub(r'^\d+\)\s*', '', l)`:
if the line starts with digits and a closing parenthesis, the rest after the
parenthesis and any following whitespace.  (Python `\d` also covers non-ASCII
decimal digits; ASCII digits are assumed.) -/
def numParenRest (l : List Char) : Option (List Char) :=
  let digits := l.takeWhile Char.isDigit
  if digits.isEmpty then none
  else
    match l.drop digits.length with
    | ')' :: rest => some (rest.dropWhile pyIsSpace)
    | _ => none

/-- The numbered-line extraction used for the clarifying-questions section. -/
def questionLines (capture : String) : List String :=
  (pySplit (pyStrip capture) "\n").filterMap (fun line =>
    (numParenRest (pyStrip line).data).map (fun rest => (⟨rest⟩ : String)))

/-- `re.search(r'정정_대상:(.*?)(?=확인_질문:|개선된_질의:|가정:|$)', text, re.DOTALL)`
followed by the dash-line extraction. -/
def correctionsSection (text : String) : List String :=
  match afterFirstL "정정_대상:".data text.data with
  | some rest =>
    dashLines ⟨captureUntilL ["확인_질문:".data, "개선된_질의:".data, "가정:".data] rest⟩
  | none => []

/-- `re.search(r'확인_질문:(.*?)(?=개선된_질의:|가정:|$)', text, re.DOTALL)` followed
by the numbered-line extraction. -/
def questionsSection (text : String) : List String :=
  match afterFirstL "확인_질문:".data text.data with
  | some rest => questionLines ⟨captureUntilL ["개선된_질의:".data, "가정:".data] rest⟩
  | none => []

/-- `re.search(r'개선된_질의:(.*?)(?=가정:|$)', text, re.DOTALL)`, stripped. -/
def improvedQuerySection (text : String) : String :=
  match afterFirstL "개선된_질의:".data text.data with
  | some rest => pyStrip ⟨captureUntilL ["가정:".data] rest⟩
  | none => ""

/-- `re.search(r'가정:(.*?)', text, re.DOTALL)` followed by the dash-line
extraction.  The pattern is a lazy group with nothing after it, so when the
marker occurs the group captures the empty string; the empty capture is still
fed through the same dash-line extraction as the corrections section. -/
def assumptionsSection (text : String) : List String :=
  match afterFirstL "가정:".data text.data with
  | some _ => dashLines ""
  | none => []

/-- `_parse_repair_output` from `query_repair.py`. -/
def parseRepairOutput (text : String) : RepairContext :=
  { corrections := correctionsSection text
    questions := questionsSection text
    improvedQuery := improvedQuerySection text  -- `improved_query or ""` is the identity
    assumptions := assumptionsSection text }

/-- Outcome of the non-streaming repair generation call:
either some exception inside the `try` block, or a successful response whose
`message.content` may be `None`. -/
inductive CallOutcome where
  | failure (msg : String)
  | success (content : Option String)
deriving Repr, DecidableEq

/-- `repair_query` from `query_repair.py`.  The prompt construction cannot
fail and does not influence the parsed result, so the generation call is
abstracted by its `outcome`. -/
def repairQuery (enableRepair : Bool) (userQuery summaryAll summaryRecent5 : String)
    (topkChunks : List (Int × String)) (outcome : CallOutcome) : RepairContext :=
  if !enableRepair then repairIdentity userQuery
  else
    match outcome with
    | .failure _ => repairIdentity userQuery
    | .success none => repairIdentity userQuery
    | .success (some output) =>
      if output = "" then repairIdentity userQuery
      else parseRepairOutput (pyStrip output)

/-! ## Context assembly — `app/services/generation.py`, `build_context` -/

/-- Python `a or b` on optional strings: the right operand when the left is
`None` or empty. -/
def pyOrStr : Option String → Option String → Option String
  | some s, b => if s = "" then b else some s
  | none, b => b

/-- `meta.get("file") or meta.get("file_name") or meta.get("path")`. -/
def resolveFileMeta (meta : List (String × String)) : Option String :=
  pyOrStr (meta.lookup "file") (pyOrStr (meta.lookup "file_name") (meta.lookup "path"))

/-- A retrieved node with score (`NodeWithScore`): the node text, the optional
relevance score (floats are only copied, never computed with, so `Rat` stands
in exactly), and the metadata mapping. -/
structure NodeWithScore where
  text : String
  score : Option Rat
  metadata : List (String × String)
deriving Repr, DecidableEq

/-- One entry of the returned `contexts` list:
`{"text": txt, "score": float(sn.score or 0.0), "metadata": meta}`. -/
structure CtxEntry where
  text : String
  score : Rat
  metadata : List (String × String)
deriving Repr, DecidableEq

/-- The `contexts` entry built for one node. -/
def ctxEntryOf (sn : NodeWithScore) : CtxEntry :=
  { text := sn.text, score := sn.score.getD 0, metadata := sn.metadata }

/-- Python rendering of `file_meta` inside the f-string (`None` prints as
`"None"`). -/
def fmtFileMeta : Option String → String
  | some s => s
  | none => "None"

/-- `f"[{i}] 파일:{file_meta}\n{chunk}"`. -/
def contextBlock (i : Nat) (fileMeta : Option String) (chunk : String) : String :=
  "[" ++ toString i ++ "] 파일:" ++ fmtFileMeta fileMeta ++ "\n" ++ chunk

/-- The `for i, sn in enumerate(nodes_with_scores, start=1)` loop of
`build_context`, with the running 1-based index `i` and character total
`total`.  Note that `files.append(file_meta)` precedes the total-budget
check, so the node that triggers the `break` still contributes its file
identifier. -/
def buildContextAux (perNode maxTotal : Nat) :
    List NodeWithScore → Nat → Nat →
    List String × List (Option String) × List CtxEntry
  | [], _, _ => ([], [], [])
  | sn :: rest, i, total =>
    let fileMeta := resolveFileMeta sn.metadata
    let chunkL := sn.text.data.take perNode
    if total + chunkL.length > maxTotal then ([], [fileMeta], [])
    else
      let out := buildContextAux perNode maxTotal rest (i + 1) (total + chunkL.length)
      (contextBlock i fileMeta ⟨chunkL⟩ :: out.1, fileMeta :: out.2.1,
        ctxEntryOf sn :: out.2.2)

/-- `build_context` from `generation.py`; `perNode` is `C.CTX_CHARS_PER_NODE`
and `maxTotal` is `C.CTX_MAX_TOTAL_CHARS`. -/
def buildContext (perNode maxTotal : Nat) (nodes : List NodeWithScore) :
    String × List (Option String) × List CtxEntry :=
  let out := buildContextAux perNode maxTotal nodes 1 0
  (String.intercalate "\n\n---\n\n" out.1, out.2.1, out.2.2)

/-! ## Query Orchestrator — `app/core/runtime.py`, `Runtime.handle_query` -/

/-- `QueryRequest` from `models.py`. -/
structure QueryRequest where
  query : String
  sessionId : Option Int
  evalMode : Bool
  topK : Nat
  thinkMode : String
  includeReasoning : Bool
  stream : Option Bool
deriving Repr, DecidableEq

/-- Python truthiness of `Optional[int]` (`None` and `0` are falsy). -/
def pyTruthyIntOpt : Option Int → Bool
  | none => false
  | some n => n ≠ 0

/-- `QA_TMPL.format(context_str=..., query_str=...)` from `generation.py`. -/
def qaTmpl (contextStr queryStr : String) : String :=
  "당신은 한국 열차 정비 도메인의 전문 어시스턴트입니다.\n" ++
  "원칙: 1) 컨텍스트 내 근거만, 없으면 '문서에 근거 없음' 명시. 2) 안전 경고 우선. 3) 절차는 단계별 서술. 4) 사용자의 질문이 모호하다면, context 를 기반으로 정확히 어떤 부분에 대한 질문인지 재확인하시오.\n" ++
  "[컨텍스트]\n" ++ contextStr ++ "\n[질문]\n" ++ queryStr ++ "\n[답변]\n"

/-- Result of the repair phase of `handle_query`/`handle_query_stream`:
the produced repair context, if any, and the effective `final_query`. -/
structure RepairedPlan where
  repairContext : Option RepairContext
  finalQuery : String
deriving Repr, DecidableEq

/-- The repair phase of `Runtime.handle_query`:
`if req.session_id and not req.eval_mode and C.ENABLE_QUERY_REPAIR:` run
query repair (its outcome for this request is `repairOutcome`), and use the
improved query when it is non-empty.  `enableQueryRepair` is
`C.ENABLE_QUERY_REPAIR`. -/
def handleQueryRepairPhase (enableQueryRepair : Bool) (req : QueryRequest)
    (repairOutcome : RepairContext) : RepairedPlan :=
  if pyTruthyIntOpt req.sessionId && !req.evalMode && enableQueryRepair then
    if repairOutcome.improvedQuery ≠ "" then
      { repairContext := some repairOutcome, finalQuery := repairOutcome.improvedQuery }
    else { repairContext := some repairOutcome, finalQuery := req.query }
  else { repairContext := none, finalQuery := req.query }

/-- The retrieval/prompt slice of `Runtime.handle_query`: which query string
is handed to the retriever and how the generation prompt is built.
`contextOf q` abstracts `build_context(await self._retrieve(q, top_k))[0]`,
the context block obtained by retrieving with query `q`. -/
structure QueryPlan where
  repairContext : Option RepairContext
  retrievalQuery : String
  prompt : String
deriving Repr, DecidableEq

/-- `final_query` selection, retrieval call and
`QA_TMPL.format(context_str=context_str, query_str=req.query)` of
`Runtime.handle_query`. -/
def handleQueryPlan (enableQueryRepair : Bool) (req : QueryRequest)
    (repairOutcome : RepairContext) (contextOf : String → String) : QueryPlan :=
  let rp := handleQueryRepairPhase enableQueryRepair req repairOutcome
  { repairContext := rp.repairContext
    retrievalQuery := rp.finalQuery
    prompt := qaTmpl (contextOf rp.finalQuery) req.query }

/-! ## Theorems for the claims -/

/-- C1 counterexample: for a generation stream that completes normally (here a
single content delta, reveal filter and thinking off, duplication off), the
event sequence delivered to the consumer contains TWO `done` events — the
generator's own terminal event, forwarded by the loop, plus the producer's
`finally` one — so it does not end with exactly one `done` event. -/
theorem C1_counterexample :
    countKind "done"
      (consumeStream (producerItems false
        (sglangEvents ⟨false, "<<<FINAL>>>", "keep_all", false⟩ [⟨none, some "hi"⟩])
        none)) = 2
    ∧ (2 : Nat) ≠ 1 := by decide

/-- C2 counterexample: with `max_sessions = 1`, a cached session `1`, and a
pre-existing cache directory for session `7`, `get_or_create 7` takes the
reconstruct-from-disk path, which inserts without any capacity eviction: the
store then holds two entries, exceeding `max_sessions`. -/
theorem C2_counterexample :
    ((getOrCreate (getOrCreate ⟨[], [7], [], 1, 72⟩ 1 0).1 7 0).1.cache.length = 2)
    ∧ ((getOrCreate (getOrCreate ⟨[], [7], [], 1, 72⟩ 1 0).1 7 0).1.maxSessions = 1)
    ∧ (2 : Nat) > 1 := by decide

/-- C3 counterexample: on an answer containing the sentinel twice, the
non-streaming filter `_apply_reveal_from_filter` returns the text after the
LAST occurrence (`"c"`), not the text after the first occurrence
(`"b<<<FINAL>>>c"`) as the claim states. -/
theorem C3_counterexample :
    applyRevealFromFilter true "a<<<FINAL>>>b<<<FINAL>>>c" "<<<FINAL>>>" "keep_all" = "c"
    ∧ pyStrip ⟨(afterFirstL "<<<FINAL>>>".data "a<<<FINAL>>>b<<<FINAL>>>c".data).getD []⟩
        = "b<<<FINAL>>>c"
    ∧ ("c" : String) ≠ "b<<<FINAL>>>c" := by decide

/-- C4 (code bug): with the reveal filter enabled, the sentinel never
appearing, and fallback `keep_all`, the streaming generator `sglang_stream`
ends with a `done` payload whose answer is empty — the withheld buffer
`"hello world"` is silently discarded — although the documented `keep_all`
fallback, as implemented by the non-streaming filter on the same input,
keeps the entire withheld text. -/
theorem C4_keep_all_fallback_bug :
    sglangEvents ⟨true, "<<<FINAL>>>", "keep_all", false⟩
        [⟨none, some "hello "⟩, ⟨none, some "world"⟩]
      = [("done", Payload.doneObj "" "")]
    ∧ applyRevealFromFilter true "hello world" "<<<FINAL>>>" "keep_all" = "hello world"
    ∧ sglangEvents ⟨true, "<<<FINAL>>>", "empty", false⟩
        [⟨none, some "hello "⟩, ⟨none, some "world"⟩]
      = [("done", Payload.doneObj "" "")]
    ∧ ("" : String) ≠ "hello world" := by decide

/-- C5 counterexample: the normalizer maps the unknown non-empty label
`"foo"` to itself, not to `content` as the claim states. -/
theorem C5_counterexample :
    normEvent "foo" = "foo" ∧ ("foo" : String) ≠ "content" := by decide

/-- C5 (amended): the normalizer is a pure function on case-insensitive
labels mapping the four documented groups to `content`/`reasoning`/`ttft`/
`done` and the empty/missing label to `content`; an unknown NON-empty label,
however, is returned unchanged (lower-cased) rather than mapped to
`content`. -/
theorem C5_amended_norm_event :
    (normEvent "delta" = "content" ∧ normEvent "text" = "content" ∧
      normEvent "token" = "content" ∧ normEvent "message" = "content" ∧
      normEvent "thought" = "reasoning" ∧ normEvent "chain_of_thought" = "reasoning" ∧
      normEvent "cot" = "reasoning" ∧ normEvent "reasoning" = "reasoning" ∧
      normEvent "first_token" = "ttft" ∧ normEvent "ttft" = "ttft" ∧
      normEvent "end" = "done" ∧ normEvent "complete" = "done" ∧
      normEvent "completion" = "done" ∧ normEvent "done" = "done" ∧
      normEvent "DELTA" = "content" ∧ normEvent "Cot" = "reasoning" ∧
      normEvent "DONE" = "done" ∧ normEvent "" = "content") ∧
    ∀ ev : String,
      pyLower ev ∉ (["delta", "text", "token", "message", "thought",
        "chain_of_thought", "cot", "reasoning", "first_token", "ttft",
        "end", "complete", "completion", "done"] : List String) →
      normEvent ev = (if pyLower ev = "" then "content" else pyLower ev) := by
  constructor
  · decide
  · intro ev h
    simp only [List.mem_cons, List.not_mem_nil, or_false, not_or] at h
    obtain ⟨h1, h2, h3, h4, h5, h6, h7, h8, h9, h10, h11, h12, h13, h14⟩ := h
    simp [normEvent, h1, h2, h3, h4, h5, h6, h7, h8, h9, h10, h11, h12, h13, h14]

/-- C5 amended witness: the general unknown-label clause applied at the
concrete label `"foo"`. -/
theorem C5_amended_norm_event_witness :
    normEvent "foo" = (if pyLower "foo" = "" then "content" else pyLower "foo") :=
  C5_amended_norm_event.2 "foo" (by decide)

/-- C6: when query repair is disabled by configuration, or the repair
generation call raises, or it returns a `None`/empty body, `repair_query`
returns the identity result: the rewritten query equals the original and the
corrections/questions/assumptions lists are all empty (and, being a total
function of the call outcome, it never propagates a failure). -/
theorem C6_repair_identity (enable : Bool) (q sa sr : String)
    (chunks : List (Int × String)) (outcome : CallOutcome)
    (h : enable = false ∨ (∃ m, outcome = CallOutcome.failure m) ∨
      outcome = CallOutcome.success none ∨ outcome = CallOutcome.success (some "")) :
    repairQuery enable q sa sr chunks outcome = repairIdentity q ∧
    (repairQuery enable q sa sr chunks outcome).improvedQuery = q ∧
    (repairQuery enable q sa sr chunks outcome).corrections = [] ∧
    (repairQuery enable q sa sr chunks outcome).questions = [] ∧
    (repairQuery enable q sa sr chunks outcome).assumptions = [] := by
  have hid : repairQuery enable q sa sr chunks outcome = repairIdentity q := by
    rcases h with h | ⟨m, h⟩ | h | h
    · subst h; simp [repairQuery]
    · subst h; cases enable <;> simp [repairQuery]
    · subst h; cases enable <;> simp [repairQuery]
    · subst h; cases enable <;> simp [repairQuery]
  exact ⟨hid, by rw [hid]; rfl, by rw [hid]; rfl, by rw [hid]; rfl, by rw [hid]; rfl⟩

/-- C6 witness: the identity result at a concrete disabled-configuration
input and at a concrete failed call. -/
theorem C6_repair_identity_witness :
    repairQuery false "질문" "" "" [] (CallOutcome.success (some "개선된_질의:\nx"))
        = repairIdentity "질문"
    ∧ repairQuery true "질문" "" "" [] (CallOutcome.failure "timeout")
        = repairIdentity "질문" :=
  ⟨(C6_repair_identity false "질문" "" "" [] _ (Or.inl rfl)).1,
    (C6_repair_identity true "질문" "" "" [] _ (Or.inr (Or.inl ⟨"timeout", rfl⟩))).1⟩

/-- C7: when a session id is present (and truthy), eval mode is off, repair
is enabled, and the repair step yields a non-empty rewritten query, the
rewritten query is the one handed to the retriever, while the generation
prompt substitutes the ORIGINAL request query into the fixed template. -/
theorem C7_retrieval_uses_rewritten_prompt_uses_original
    (req : QueryRequest) (rc : RepairContext) (contextOf : String → String)
    (hsid : pyTruthyIntOpt req.sessionId = true) (heval : req.evalMode = false)
    (himp : rc.improvedQuery ≠ "") :
    (handleQueryPlan true req rc contextOf).retrievalQuery = rc.improvedQuery ∧
    (handleQueryPlan true req rc contextOf).prompt
      = qaTmpl (contextOf rc.improvedQuery) req.query := by
  simp [handleQueryPlan, handleQueryRepairPhase, hsid, heval, himp]

/-- C7 witness: the concrete multihop scenario — session 1001, an ambiguous
follow-up query, and a rewritten query produced by repair. -/
theorem C7_retrieval_uses_rewritten_prompt_uses_original_witness :
    (handleQueryPlan true ⟨"그거 주기가 어떻게 돼?", some 1001, false, 5, "off", false, none⟩
        ⟨[], [], "점검 주기는 어떻게 되는가?", []⟩ (fun q => q)).retrievalQuery
      = "점검 주기는 어떻게 되는가?" ∧
    (handleQueryPlan true ⟨"그거 주기가 어떻게 돼?", some 1001, false, 5, "off", false, none⟩
        ⟨[], [], "점검 주기는 어떻게 되는가?", []⟩ (fun q => q)).prompt
      = qaTmpl "점검 주기는 어떻게 되는가?" "그거 주기가 어떻게 돼?" :=
  C7_retrieval_uses_rewritten_prompt_uses_original
    ⟨"그거 주기가 어떻게 돼?", some 1001, false, 5, "off", false, none⟩
    ⟨[], [], "점검 주기는 어떻게 되는가?", []⟩ (fun q => q)
    (by decide) rfl (by decide)

/-- C8 counterexample: with compatibility duplication enabled and a reasoning
delta arriving before the first content delta, the duplicated synthetic
content event is enqueued before the `ttft` event, so a `content` event
precedes `ttft` in the delivered stream. -/
theorem C8_counterexample :
    ttftBeforeContentL false
      ((consumeStream (producerItems true
        (sglangEvents ⟨false, "<<<FINAL>>>", "keep_all", false⟩
          [⟨some "생각", none⟩, ⟨none, some "답"⟩]) none)).map Prod.fst) = false :=
  by decide

/-- C9 counterexample: with a per-item budget of 10 and a total budget of 5,
the second node's truncated chunk would exceed the total budget, so its block
is NOT included — yet its file identifier is appended to `files` before the
budget check, so `files` has two entries while only one item was included. -/
theorem C9_counterexample :
    (buildContext 10 5 [⟨"aaaa", some 1, [("file", "f1")]⟩,
        ⟨"bbbb", some 1, [("file", "f2")]⟩]).2.1
      = [some "f1", some "f2"]
    ∧ (buildContext 10 5 [⟨"aaaa", some 1, [("file", "f1")]⟩,
        ⟨"bbbb", some 1, [("file", "f2")]⟩]).2.2.length = 1
    ∧ (buildContext 10 5 [⟨"aaaa", some 1, [("file", "f1")]⟩,
        ⟨"bbbb", some 1, [("file", "f2")]⟩]).1 = "[1] 파일:f1\naaaa" := by decide

/-- C10: for every repair-output text, the parsed assumptions list is empty —
the regex `가정:(.*?)` captures zero characters, so no assumption line can
ever be extracted. -/
theorem C10_assumptions_always_empty (text : String) :
    (parseRepairOutput text).assumptions = [] := by
  have h : (parseRepairOutput text).assumptions = assumptionsSection text := rfl
  rw [h]
  unfold assumptionsSection
  cases afterFirstL "가정:".data text.data with
  | none => rfl
  | some r => show dashLines "" = []; decide

/-! ### Machinery for the amended context-assembly claim -/

/-- Length of the truncated chunk `txt[: C.CTX_CHARS_PER_NODE]` of one node. -/
def chunkLen (perNode : Nat) (sn : NodeWithScore) : Nat :=
  (sn.text.data.take perNode).length

/-- Total length of the truncated chunks of a node list. -/
def chunkTotal (perNode : Nat) (nodes : List NodeWithScore) : Nat :=
  (nodes.map (chunkLen perNode)).sum

theorem chunkTotal_nil (perNode : Nat) : chunkTotal perNode [] = 0 := rfl

theorem chunkTotal_cons (perNode : Nat) (sn : NodeWithScore) (l : List NodeWithScore) :
    chunkTotal perNode (sn :: l) = chunkLen perNode sn + chunkTotal perNode l := by
  simp [chunkTotal]

theorem buildContextAux_cons_stop {perNode maxTotal i total : Nat}
    {sn : NodeWithScore} {rest : List NodeWithScore}
    (h : maxTotal < total + (sn.text.data.take perNode).length) :
    buildContextAux perNode maxTotal (sn :: rest) i total
      = ([], [resolveFileMeta sn.metadata], []) := by
  simp only [buildContextAux]
  rw [if_pos h]

theorem buildContextAux_cons_go {perNode maxTotal i total : Nat}
    {sn : NodeWithScore} {rest : List NodeWithScore}
    (h : ¬ maxTotal < total + (sn.text.data.take perNode).length) :
    buildContextAux perNode maxTotal (sn :: rest) i total
      = (contextBlock i (resolveFileMeta sn.metadata) ⟨sn.text.data.take perNode⟩ ::
          (buildContextAux perNode maxTotal rest (i + 1)
            (total + (sn.text.data.take perNode).length)).1,
        resolveFileMeta sn.metadata ::
          (buildContextAux perNode maxTotal rest (i + 1)
            (total + (sn.text.data.take perNode).length)).2.1,
        ctxEntryOf sn ::
          (buildContextAux perNode maxTotal rest (i + 1)
            (total + (sn.text.data.take perNode).length)).2.2) := by
  simp only [buildContextAux]
  rw [if_neg h]

/-- Structure of `buildContextAux`: there is a cut position `k` such that the
blocks/contexts cover exactly the first `k` nodes, the files cover the first
`k` nodes plus the stopping node when the loop broke, the budget is respected
by the included chunks, and the loop broke exactly at the first overflowing
chunk. -/
theorem buildContextAux_spec (perNode maxTotal : Nat) :
    ∀ (nodes : List NodeWithScore) (i total : Nat),
      ∃ k, k ≤ nodes.length ∧
        (buildContextAux perNode maxTotal nodes i total).1
          = ((nodes.take k).enumFrom i).map (fun p =>
              contextBlock p.1 (resolveFileMeta p.2.metadata) ⟨p.2.text.data.take perNode⟩) ∧
        (buildContextAux perNode maxTotal nodes i total).2.1
          = (nodes.take (min (k + 1) nodes.length)).map
              (fun sn => resolveFileMeta sn.metadata) ∧
        (buildContextAux perNode maxTotal nodes i total).2.2
          = (nodes.take k).map ctxEntryOf ∧
        (k = 0 ∨ total + chunkTotal perNode (nodes.take k) ≤ maxTotal) ∧
        (k < nodes.length → maxTotal < total + chunkTotal perNode (nodes.take (k + 1))) := by
  intro nodes
  induction nodes with
  | nil =>
    intro i total
    exact ⟨0, Nat.le_refl 0, rfl, rfl, rfl, Or.inl rfl,
      fun h => absurd h (Nat.not_lt_zero 0)⟩
  | cons sn rest ih =>
    intro i total
    by_cases hb : maxTotal < total + (sn.text.data.take perNode).length
    · refine ⟨0, Nat.zero_le _, ?_, ?_, ?_, Or.inl rfl, ?_⟩
      · rw [buildContextAux_cons_stop hb]
        simp
      · rw [buildContextAux_cons_stop hb]
        simp [Nat.succ_min_succ]
      · rw [buildContextAux_cons_stop hb]
        simp
      · intro _
        simpa [chunkTotal_cons, chunkLen] using hb
    · obtain ⟨k, hk, hblocks, hfiles, hctx, hbudget, hstop⟩ :=
        ih (i + 1) (total + (sn.text.data.take perNode).length)
    
      refine ⟨k + 1, by simpa using Nat.succ_le_succ hk, ?_, ?_, ?_, ?_, ?_⟩
      · rw [buildContextAux_cons_go hb]
        simp only [List.take_succ_cons, List.enumFrom_cons, List.map_cons, hblocks]
      · rw [buildContextAux_cons_go hb]
        simp only [List.length_cons, Nat.succ_min_succ, List.take_succ_cons,
          List.map_cons, hfiles]
      · rw [buildContextAux_cons_go hb]
        simp only [List.take_succ_cons, List.map_cons, hctx]
      · right
        rcases hbudget with h0 | hle
        · subst h0
          simpa [chunkTotal_cons, chunkLen] using Nat.le_of_not_lt hb
        · simpa [List.take_succ_cons, chunkTotal_cons, chunkLen, Nat.add_assoc] using hle
      · intro hlt
        have hlt2 : k < rest.length := by simpa using Nat.lt_of_succ_lt_succ (by simpa using hlt)
        have := hstop hlt2
        simpa [List.take_succ_cons, chunkTotal_cons, chunkLen, Nat.add_assoc] using this

/-- C9 (amended): for every retrieved node list there is a cut `k` such that
the context block is the join of the first `k` items, each truncated to the
per-item character budget; the sum of included chunk lengths never exceeds
the total budget and inclusion stops at the first item whose truncated chunk
would exceed it; the contexts list covers exactly the included items; but the
returned file-identifier list covers the included items PLUS the item that
triggered the stop (its identifier is appended before the budget check), so
it can contain one identifier more than the items actually included. -/
theorem C9_amended_build_context (perNode maxTotal : Nat) (nodes : List NodeWithScore) :
    ∃ k, k ≤ nodes.length ∧
      (buildContext perNode maxTotal nodes).1
        = String.intercalate "\n\n---\n\n" (((nodes.take k).enumFrom 1).map (fun p =>
            contextBlock p.1 (resolveFileMeta p.2.metadata) ⟨p.2.text.data.take perNode⟩)) ∧
      (buildContext perNode maxTotal nodes).2.2 = (nodes.take k).map ctxEntryOf ∧
      chunkTotal perNode (nodes.take k) ≤ maxTotal ∧
      (buildContext perNode maxTotal nodes).2.1
        = (nodes.take (min (k + 1) nodes.length)).map
            (fun sn => resolveFileMeta sn.metadata) ∧
      (k < nodes.length → maxTotal < chunkTotal perNode (nodes.take (k + 1))) := by
  obtain ⟨k, hk, hblocks, hfiles, hctx, hbudget, hstop⟩ :=
    buildContextAux_spec perNode maxTotal nodes 1 0
  refine ⟨k, hk, ?_, ?_, ?_, ?_, ?_⟩
  · show String.intercalate "\n\n---\n\n" (buildContextAux perNode maxTotal nodes 1 0).1 = _
    rw [hblocks]
  · exact hctx
  · rcases hbudget with h0 | hle
    · subst h0; simp [chunkTotal]
    · simpa using hle
  · exact hfiles
  · intro hlt
    simpa using hstop hlt

/-- C9 amended witness: the structure theorem applied at the concrete
counterexample input (the cut is `k = 1`: one included item, two file
identifiers). -/
theorem C9_amended_build_context_witness :
    ∃ k, k ≤ ([⟨"aaaa", some 1, [("file", "f1")]⟩,
        ⟨"bbbb", some 1, [("file", "f2")]⟩] : List NodeWithScore).length ∧
      (buildContext 10 5 [⟨"aaaa", some 1, [("file", "f1")]⟩,
          ⟨"bbbb", some 1, [("file", "f2")]⟩]).1
        = String.intercalate "\n\n---\n\n"
            (((([⟨"aaaa", some 1, [("file", "f1")]⟩,
              ⟨"bbbb", some 1, [("file", "f2")]⟩] : List NodeWithScore).take k).enumFrom 1).map
              (fun p => contextBlock p.1 (resolveFileMeta p.2.metadata)
                ⟨p.2.text.data.take 10⟩)) ∧
      (buildContext 10 5 [⟨"aaaa", some 1, [("file", "f1")]⟩,
          ⟨"bbbb", some 1, [("file", "f2")]⟩]).2.2
        = (([⟨"aaaa", some 1, [("file", "f1")]⟩,
            ⟨"bbbb", some 1, [("file", "f2")]⟩] : List NodeWithScore).take k).map ctxEntryOf ∧
      chunkTotal 10 (([⟨"aaaa", some 1, [("file", "f1")]⟩,
          ⟨"bbbb", some 1, [("file", "f2")]⟩] : List NodeWithScore).take k) ≤ 5 ∧
      (buildContext 10 5 [⟨"aaaa", some 1, [("file", "f1")]⟩,
          ⟨"bbbb", some 1, [("file", "f2")]⟩]).2.1
        = (([⟨"aaaa", some 1, [("file", "f1")]⟩,
            ⟨"bbbb", some 1, [("file", "f2")]⟩] : List NodeWithScore).take
              (min (k + 1) 2)).map (fun sn => resolveFileMeta sn.metadata) ∧
      (k < ([⟨"aaaa", some 1, [("file", "f1")]⟩,
          ⟨"bbbb", some 1, [("file", "f2")]⟩] : List NodeWithScore).length →
        5 < chunkTotal 10 (([⟨"aaaa", some 1, [("file", "f1")]⟩,
          ⟨"bbbb", some 1, [("file", "f2")]⟩] : List NodeWithScore).take (k + 1))) :=
  C9_amended_build_context 10 5
    [⟨"aaaa", some 1, [("file", "f1")]⟩, ⟨"bbbb", some 1, [("file", "f2")]⟩]

/-! ### Machinery for the amended session-capacity claim -/

/-- The `_evict_lru` loop pops exactly the oldest `length - max_sessions`
entries: the evicted ids are the front of the access order and the survivors
are the suffix. -/
theorem evictFront_eq (maxS : Nat) (l : List (Int × SessionCache)) :
    evictFront maxS l
      = ((l.take (l.length - maxS)).map Prod.fst, l.drop (l.length - maxS)) := by
  induction l with
  | nil => simp [evictFront]
  | cons hd tl ih =>
    obtain ⟨id, c⟩ := hd
    by_cases h : tl.length + 1 > maxS
    · have hs : ((id, c) :: tl).length - maxS = (tl.length - maxS) + 1 := by
        simp only [List.length_cons]; omega
      simp only [evictFront, if_pos h, ih, hs, List.take_succ_cons, List.drop_succ_cons,
        List.map_cons]
    · have hs : ((id, c) :: tl).length - maxS = 0 := by
        simp only [List.length_cons]; omega
      simp only [evictFront, if_neg h, hs, List.take_zero, List.drop_zero, List.map_nil]

/-- C2 (amended): capacity eviction is enforced on the fresh-create insertion
path: after `_evict_lru` the store keeps exactly the most-recently-used
suffix (at most `max_sessions` entries) and the evicted entries — exactly
the least-recently-accessed prefix — have their directories and persisted
metadata deleted; `init_session` therefore never leaves more than
`max_sessions` entries.  However, the reconstruct-from-disk path of
`get_or_create` inserts WITHOUT any capacity eviction, so such an insertion
can leave the store with more than `max_sessions` entries. -/
theorem C2_amended_lru_capacity :
    (∀ st : SessionStore,
      (evictLRU st).cache = st.cache.drop (st.cache.length - st.maxSessions) ∧
      (evictLRU st).cache.length ≤ st.maxSessions ∧
      (∀ p ∈ st.cache.take (st.cache.length - st.maxSessions),
        (∀ d ∈ (evictLRU st).dirs, d ≠ p.1) ∧
        (∀ q ∈ (evictLRU st).metas, q.1 ≠ p.1))) ∧
    (∀ (st : SessionStore) (id : Int) (now : Nat),
      (initSession st id now).1.cache.length ≤ st.maxSessions) ∧
    (∀ (st : SessionStore) (id : Int) (now : Nat),
      st.cache.lookup id = none → st.dirs.contains id = true →
      (getOrCreate st id now).1.cache
        = cacheInsertMRU st.cache id (loadMeta st (newSessionCache id))) := by
  have hcache : ∀ st : SessionStore,
      (evictLRU st).cache = st.cache.drop (st.cache.length - st.maxSessions) := by
    intro st
    show (evictFront st.maxSessions st.cache).2 = _
    rw [evictFront_eq]
  have hlen : ∀ st : SessionStore, (evictLRU st).cache.length ≤ st.maxSessions := by
    intro st
    rw [hcache st, List.length_drop]
    omega
  refine ⟨fun st => ⟨hcache st, hlen st, ?_⟩, fun st id now => hlen _, ?_⟩
  · intro p hp
    have hmem : ((st.cache.take (st.cache.length - st.maxSessions)).map Prod.fst).contains p.1
        = true :=
      List.elem_eq_true_of_mem (List.mem_map_of_mem Prod.fst hp)
    constructor
    · intro d hd hdp
      have h2 : d ∈ st.dirs.filter
          (fun x => !((evictFront st.maxSessions st.cache).1.contains x)) := hd
      rw [List.mem_filter] at h2
      have hno := h2.2
      simp only [evictFront_eq] at hno
      rw [hdp] at hno
      rw [hmem] at hno
      simp at hno
    · intro q hq hqp
      have h2 : q ∈ st.metas.filter
          (fun x => !((evictFront st.maxSessions st.cache).1.contains x.1)) := hq
      rw [List.mem_filter] at h2
      have hno := h2.2
      simp only [evictFront_eq] at hno
      rw [hqp] at hno
      rw [hmem] at hno
      simp at hno
  · intro st id now hlook hdir
    have hmemd : id ∈ st.dirs := by simpa using hdir
    simp [getOrCreate, hlook, hmemd]

/-- C2 amended witness: the amended theorem applied at concrete stores —
an over-capacity store whose LRU entry (session 1) is evicted with its
artifacts, a concrete `init_session`, and the concrete
reconstruct-from-disk insertion of session 7. -/
theorem C2_amended_lru_capacity_witness :
    ((evictLRU ⟨[(1, newSessionCache 1), (2, newSessionCache 2)], [1, 2], [], 1, 72⟩).cache
        = ([(1, newSessionCache 1), (2, newSessionCache 2)]
            : List (Int × SessionCache)).drop (2 - 1) ∧
      (∀ d ∈ (evictLRU ⟨[(1, newSessionCache 1), (2, newSessionCache 2)],
          [1, 2], [], 1, 72⟩).dirs, d ≠ (1 : Int)) ∧
      (initSession ⟨[(1, newSessionCache 1)], [1], [], 1, 72⟩ 2 0).1.cache.length ≤ 1) ∧
    (getOrCreate ⟨[(1, newSessionCache 1)], [7, 1], [], 1, 72⟩ 7 0).1.cache
      = cacheInsertMRU [(1, newSessionCache 1)] 7
          (loadMeta ⟨[(1, newSessionCache 1)], [7, 1], [], 1, 72⟩ (newSessionCache 7)) := by
  refine ⟨⟨?_, ?_, ?_⟩, ?_⟩
  · exact (C2_amended_lru_capacity.1 ⟨[(1, newSessionCache 1), (2, newSessionCache 2)],
      [1, 2], [], 1, 72⟩).1
  · intro d hd
    exact ((C2_amended_lru_capacity.1 ⟨[(1, newSessionCache 1), (2, newSessionCache 2)],
      [1, 2], [], 1, 72⟩).2.2 (1, newSessionCache 1) (by decide)).1 d hd
  · exact C2_amended_lru_capacity.2.1 ⟨[(1, newSessionCache 1)], [1], [], 1, 72⟩ 2 0
  · exact C2_amended_lru_capacity.2.2 ⟨[(1, newSessionCache 1)], [7, 1], [], 1, 72⟩ 7 0
      (by decide) (by decide)

/-! ### Machinery for the amended stream-bridge claims -/

/-- The kinds (labels) of a delivered event sequence, in order. -/
def eventKinds (l : List (String × Payload)) : List String :=
  l.map Prod.fst

/-- Whether a `ttft` kind has been seen after processing `ks`, starting from
`seen`. -/
def seenTtftAfter (seen : Bool) (ks : List String) : Bool :=
  seen || ks.any (fun k => k = "ttft")

theorem ttftBeforeContentL_append (xs ys : List String) (seen : Bool) :
    ttftBeforeContentL seen (xs ++ ys)
      = (ttftBeforeContentL seen xs && ttftBeforeContentL (seenTtftAfter seen xs) ys) := by
  induction xs generalizing seen with
  | nil => simp [ttftBeforeContentL, seenTtftAfter]
  | cons k ks ih =>
    simp only [List.cons_append, ttftBeforeContentL]
    by_cases hcond : (k = "content" && !seen) = true
    · rw [if_pos hcond, if_pos hcond]
      simp
    · rw [if_neg hcond, if_neg hcond]
      simp only [List.append_eq]
      rw [ih]
      have hseen : seenTtftAfter (seen || k = "ttft") ks = seenTtftAfter seen (k :: ks) := by
        simp [seenTtftAfter, List.any_cons, Bool.or_assoc]
      rw [hseen]

theorem ttftBeforeContentL_take (seen : Bool) (l : List String) (n : Nat)
    (h : ttftBeforeContentL seen l = true) :
    ttftBeforeContentL seen (l.take n) = true := by
  have hsplit := ttftBeforeContentL_append (l.take n) (l.drop n) seen
  rw [List.take_append_drop, h] at hsplit
  have h2 := hsplit.symm
  rw [Bool.and_eq_true] at h2
  exact h2.1

theorem ttftBeforeContentL_no_content (ys : List String) :
    (∀ k ∈ ys, k ≠ "content") → ∀ seen : Bool, ttftBeforeContentL seen ys = true := by
  induction ys with
  | nil => intro _ seen; rfl
  | cons k ks ih =>
    intro h seen
    have hk : k ≠ "content" := h k (List.mem_cons_self k ks)
    simp only [ttftBeforeContentL, hk, decide_False, Bool.false_and, Bool.false_eq_true,
      if_false]
    exact ih (fun x hx => h x (List.mem_cons_of_mem k hx)) (seen || k = "ttft")

/-- Pair-level expansion of one generator event by the producer loop: the
optional compatibility duplicate of a reasoning event into the content
channel, followed by the normalized event itself. -/
def pairExpandDup (dup : Bool) (e : String × Payload) : List (String × Payload) :=
  (if normEvent e.1 = "reasoning" && dup then [("content", e.2)] else [])
    ++ [(normEvent e.1, e.2)]

/-- The events enqueued after the producer loop: the `except` branch's error
event, or the post-loop empty-content compatibility event. -/
def producerMid (dup sent : Bool) (raised : Option String) : List (String × Payload) :=
  match raised with
  | some m => [("error", Payload.errObj m)]
  | none => if !sent && dup then [("content", Payload.text "")] else []

/-- All `(kind, payload)` events the producer enqueues before the close
marker. -/
def producerPairs (dup : Bool) (events : List (String × Payload))
    (raised : Option String) : List (String × Payload) :=
  events.flatMap (pairExpandDup dup)
    ++ producerMid dup (producerLoop dup events false).2 raised
    ++ [("done", Payload.timingObj)]

theorem producerLoop_items_eq (dup : Bool) :
    ∀ (evs : List (String × Payload)) (sent : Bool),
      (producerLoop dup evs sent).1
        = (evs.flatMap (pairExpandDup dup)).map (fun e => QItem.ev e.1 e.2) := by
  intro evs
  induction evs with
  | nil => intro sent; rfl
  | cons e rest ih =>
    intro sent
    obtain ⟨raw, data⟩ := e
    simp only [producerLoop, List.flatMap_cons, List.map_append, pairExpandDup, ih]
    by_cases hd : normEvent raw = "reasoning" && dup
    · rw [if_pos hd, if_pos hd]
      simp
    · rw [if_neg hd, if_neg hd]
      simp

theorem producerItems_eq (dup : Bool) (events : List (String × Payload))
    (raised : Option String) :
    producerItems dup events raised
      = (producerPairs dup events raised).map (fun e => QItem.ev e.1 e.2)
        ++ [QItem.close] := by
  simp only [producerItems, producerPairs, List.map_append, producerLoop_items_eq]
  cases raised with
  | some m => simp [producerMid]
  | none =>
    by_cases hs : !(producerLoop dup events false).2 && dup
    · simp [producerMid, hs]
    · simp [producerMid, hs]

theorem consumeStream_map_close (l : List (String × Payload)) (rest : List QItem) :
    consumeStream ((l.map (fun e => QItem.ev e.1 e.2)) ++ QItem.close :: rest) = l := by
  induction l with
  | nil => rfl
  | cons e es ih => simp [consumeStream, ih]

/-- What the consumer of `handle_query_stream` yields is exactly the
producer's pair sequence before the close marker. -/
theorem consumeStream_producerItems (dup : Bool) (events : List (String × Payload))
    (raised : Option String) :
    consumeStream (producerItems dup events raised) = producerPairs dup events raised := by
  rw [producerItems_eq]
  have h := consumeStream_map_close (producerPairs dup events raised) []
  simpa using h

/-- The reasoning branch emits at most one `reasoning` event and never
touches `firstContent`. -/
theorem sglangStepReason_spec (st : GenState) (d : Delta) :
    ((sglangStepReason st d).2 = [] ∨
      ∃ p, (sglangStepReason st d).2 = [("reasoning", p)]) ∧
    (sglangStepReason st d).1.firstContent = st.firstContent := by
  rcases hrc : d.reasoningContent with _ | r
  · simp [sglangStepReason, hrc]
  · by_cases hr : r = ""
    · simp [sglangStepReason, hrc, hr]
    · simp [sglangStepReason, hrc, hr]

/-- The content branch either withholds the chunk (no events, `firstContent`
unchanged) or emits the chunk, preceded by `ttft` when it is the first one;
afterwards `firstContent` is set. -/
theorem sglangStepContent_spec (st : GenState) (d : Delta) :
    ((sglangStepContent st d).2 = [] ∧
      (sglangStepContent st d).1.firstContent = st.firstContent) ∨
    (st.firstContent = true ∧
      (∃ c, (sglangStepContent st d).2 = [("content", Payload.text c)]) ∧
      (sglangStepContent st d).1.firstContent = true) ∨
    (st.firstContent = false ∧
      (∃ c, (sglangStepContent st d).2
        = [("ttft", Payload.num), ("content", Payload.text c)]) ∧
      (sglangStepContent st d).1.firstContent = true) := by
  rcases hcc : d.content with _ | c
  · exact Or.inl (by simp [sglangStepContent, hcc])
  · by_cases hc : c = ""
    · exact Or.inl (by simp [sglangStepContent, hcc, hc])
    · rcases hrb : st.revealBuf with _ | buf
      · cases hfc : st.firstContent
        · refine Or.inr (Or.inr ⟨rfl, ⟨c, ?_⟩, ?_⟩) <;>
            simp [sglangStepContent, hcc, hc, hrb, emitContent, hfc]
        · refine Or.inr (Or.inl ⟨rfl, ⟨c, ?_⟩, ?_⟩) <;>
            simp [sglangStepContent, hcc, hc, hrb, emitContent, hfc]
      · by_cases hf : (buf.add c).2 = ""
        · exact Or.inl (by simp [sglangStepContent, hcc, hc, hrb, hf])
        · cases hfc : st.firstContent
          · refine Or.inr (Or.inr ⟨rfl, ⟨(buf.add c).2, ?_⟩, ?_⟩) <;>
              simp [sglangStepContent, hcc, hc, hrb, hf, emitContent, hfc]
          · refine Or.inr (Or.inl ⟨rfl, ⟨(buf.add c).2, ?_⟩, ?_⟩) <;>
              simp [sglangStepContent, hcc, hc, hrb, hf, emitContent, hfc]

theorem eventKinds_append (l1 l2 : List (String × Payload)) :
    eventKinds (l1 ++ l2) = eventKinds l1 ++ eventKinds l2 := by
  simp [eventKinds]

theorem seenTtftAfter_append (s : Bool) (xs ys : List String) :
    seenTtftAfter s (xs ++ ys) = seenTtftAfter (seenTtftAfter s xs) ys := by
  simp [seenTtftAfter, List.any_append, Bool.or_assoc]

/-- One loop iteration of `sglang_stream` keeps the `ttft`-before-`content`
invariant: every content kind it emits is preceded by a `ttft` (either
already seen or emitted in the same iteration); the final seen-flag matches
`firstContent`; and every emitted kind is reasoning/ttft/content. -/
theorem sglangStep_spec (st : GenState) (d : Delta) :
    ttftBeforeContentL st.firstContent (eventKinds (sglangStep st d).2) = true
    ∧ seenTtftAfter st.firstContent (eventKinds (sglangStep st d).2)
        = (sglangStep st d).1.firstContent
    ∧ ∀ e ∈ (sglangStep st d).2,
        e.1 = "reasoning" ∨ e.1 = "ttft" ∨ e.1 = "content" := by
  obtain ⟨hRev, hRfc⟩ := sglangStepReason_spec st d
  have hC := sglangStepContent_spec (sglangStepReason st d).1 d
  have hstep2 : (sglangStep st d).2
      = (sglangStepReason st d).2 ++ (sglangStepContent (sglangStepReason st d).1 d).2 := rfl
  have hstep1 : (sglangStep st d).1 = (sglangStepContent (sglangStepReason st d).1 d).1 := rfl
  rw [hstep2, hstep1]
  rw [hRfc] at hC
  rcases hRev with hR | ⟨p, hR⟩ <;> rw [hR] <;>
    rcases hC with ⟨hCe, hCf⟩ | ⟨hfc, ⟨c, hCe⟩, hCf⟩ | ⟨hfc, ⟨c, hCe⟩, hCf⟩ <;>
      rw [hCe, hCf] <;>
        first
        | (refine ⟨?_, ?_, ?_⟩ <;>
            simp [eventKinds, ttftBeforeContentL, seenTtftAfter, hfc])
        | (refine ⟨?_, ?_, ?_⟩ <;>
            simp [eventKinds, ttftBeforeContentL, seenTtftAfter])

/-- The whole `sglang_stream` loop keeps the `ttft`-before-`content`
invariant, tracks `firstContent`, and emits only
reasoning/ttft/content kinds. -/
theorem sglangRun_spec :
    ∀ (ds : List Delta) (st : GenState),
      ttftBeforeContentL st.firstContent (eventKinds (sglangRun st ds).2) = true
      ∧ seenTtftAfter st.firstContent (eventKinds (sglangRun st ds).2)
          = (sglangRun st ds).1.firstContent
      ∧ ∀ e ∈ (sglangRun st ds).2,
          e.1 = "reasoning" ∨ e.1 = "ttft" ∨ e.1 = "content" := by
  intro ds
  induction ds with
  | nil =>
    intro st
    exact ⟨rfl, by simp [sglangRun, eventKinds, seenTtftAfter], by simp [sglangRun]⟩
  | cons d ds ih =>
    intro st
    obtain ⟨h1, h2, h3⟩ := sglangStep_spec st d
    obtain ⟨g1, g2, g3⟩ := ih (sglangStep st d).1
    have hrun2 : (sglangRun st (d :: ds)).2
        = (sglangStep st d).2 ++ (sglangRun (sglangStep st d).1 ds).2 := rfl
    have hrun1 : (sglangRun st (d :: ds)).1 = (sglangRun (sglangStep st d).1 ds).1 := rfl
    rw [hrun2, hrun1, eventKinds_append]
    refine ⟨?_, ?_, ?_⟩
    · rw [ttftBeforeContentL_append, h1, h2, g1]
      rfl
    · rw [seenTtftAfter_append, h2, g2]
    · intro e he
      rcases List.mem_append.mp he with he | he
      · exact h3 e he
      · exact g3 e he

/-- `sglang_stream` always terminates with a `done` event carrying the answer
and reasoning text. -/
theorem sglangFinish_done (cfg : GenConfig) (st : GenState) :
    ∃ a r, sglangFinish cfg st = ("done", Payload.doneObj a r) := by
  unfold sglangFinish
  cases cfg.enableThinking <;> simp

theorem sglangEvents_eq (cfg : GenConfig) (deltas : List Delta) :
    sglangEvents cfg deltas
      = (sglangRun (initGenState cfg) deltas).2
        ++ [sglangFinish cfg (sglangRun (initGenState cfg) deltas).1] := rfl

/-- Every event yielded by `sglang_stream` has kind reasoning, ttft, content
or done. -/
theorem sglangEvents_kind_mem (cfg : GenConfig) (deltas : List Delta) :
    ∀ e ∈ sglangEvents cfg deltas,
      e.1 = "reasoning" ∨ e.1 = "ttft" ∨ e.1 = "content" ∨ e.1 = "done" := by
  intro e he
  rw [sglangEvents_eq] at he
  rcases List.mem_append.mp he with he | he
  · obtain ⟨-, -, h3⟩ := sglangRun_spec deltas (initGenState cfg)
    rcases h3 e he with h | h | h
    · exact Or.inl h
    · exact Or.inr (Or.inl h)
    · exact Or.inr (Or.inr (Or.inl h))
  · obtain ⟨a, r, hfin⟩ := sglangFinish_done cfg (sglangRun (initGenState cfg) deltas).1
    rw [hfin] at he
    rcases List.mem_singleton.mp he with rfl
    exact Or.inr (Or.inr (Or.inr rfl))

/-- Inside `sglang_stream`'s own event sequence, `ttft` precedes the first
content event. -/
theorem sglangEvents_ttft (cfg : GenConfig) (deltas : List Delta) :
    ttftBeforeContentL false (eventKinds (sglangEvents cfg deltas)) = true := by
  rw [sglangEvents_eq, eventKinds_append]
  obtain ⟨h1, h2, -⟩ := sglangRun_spec deltas (initGenState cfg)
  have hinit : (initGenState cfg).firstContent = false := rfl
  rw [hinit] at h1 h2
  rw [ttftBeforeContentL_append, h1]
  obtain ⟨a, r, hfin⟩ := sglangFinish_done cfg (sglangRun (initGenState cfg) deltas).1
  rw [hfin]
  have : ∀ s : Bool, ttftBeforeContentL s (eventKinds [("done", Payload.doneObj a r)]) = true := by
    intro s; cases s <;> rfl
  rw [this]
  rfl

theorem normEvent_id_of_gen_label {k : String}
    (h : k = "reasoning" ∨ k = "ttft" ∨ k = "content" ∨ k = "done") :
    normEvent k = k := by
  rcases h with h | h | h | h <;> rw [h] <;> decide

theorem map_norm_id (l : List (String × Payload))
    (h : ∀ e ∈ l, e.1 = "reasoning" ∨ e.1 = "ttft" ∨ e.1 = "content" ∨ e.1 = "done") :
    l.map (fun e => ((normEvent e.1, e.2) : String × Payload)) = l := by
  induction l with
  | nil => rfl
  | cons e es ih =>
    simp only [List.map_cons]
    rw [normEvent_id_of_gen_label (h e (List.mem_cons_self e es))]
    rw [ih (fun x hx => h x (List.mem_cons_of_mem e hx))]

theorem flatMap_pairExpand_false (l : List (String × Payload)) :
    l.flatMap (pairExpandDup false) = l.map (fun e => ((normEvent e.1, e.2) : String × Payload)) := by
  induction l with
  | nil => rfl
  | cons e es ih => simp [pairExpandDup, ih]

/-- C8 (amended): when compatibility duplication is DISABLED, within every
stream delivered by the bridge — for any configuration, any prefix of the
generator's events (a raise truncates the stream), and whether or not the
producer recorded an exception — a `ttft` event precedes the first `content`
event.  (With duplication enabled the property fails: see the
counterexample, where a reasoning event is duplicated into the content
channel before `ttft`.) -/
theorem C8_amended_ttft_before_content_nodup (cfg : GenConfig) (deltas : List Delta)
    (cut : Nat) (raised : Option String) :
    ttftBeforeContentL false
      (eventKinds (consumeStream (producerItems false
        ((sglangEvents cfg deltas).take cut) raised))) = true := by
  rw [consumeStream_producerItems]
  have hmem4 : ∀ e ∈ (sglangEvents cfg deltas).take cut,
      e.1 = "reasoning" ∨ e.1 = "ttft" ∨ e.1 = "content" ∨ e.1 = "done" :=
    fun e he => sglangEvents_kind_mem cfg deltas e (List.take_subset cut _ he)
  unfold producerPairs
  rw [flatMap_pairExpand_false, map_norm_id _ hmem4]
  rw [List.append_assoc, eventKinds_append, ttftBeforeContentL_append]
  have h1 : ttftBeforeContentL false (eventKinds ((sglangEvents cfg deltas).take cut)) = true := by
    have : eventKinds ((sglangEvents cfg deltas).take cut)
        = (eventKinds (sglangEvents cfg deltas)).take cut := by
      simp [eventKinds, List.map_take]
    rw [this]
    exact ttftBeforeContentL_take false _ cut (sglangEvents_ttft cfg deltas)
  rw [h1]
  have h2 : ∀ s : Bool,
      ttftBeforeContentL s (eventKinds
        (producerMid false (producerLoop false ((sglangEvents cfg deltas).take cut) false).2 raised
          ++ [("done", Payload.timingObj)])) = true := by
    intro s
    apply ttftBeforeContentL_no_content
    intro k hk
    rcases raised with _ | m
    · simp [producerMid, eventKinds] at hk
      rw [hk]
      decide
    · simp [producerMid, eventKinds] at hk
      rcases hk with hk | hk <;> rw [hk] <;> decide
  rw [h2]
  rfl

theorem countKind_append (k : String) (l1 l2 : List (String × Payload)) :
    countKind k (l1 ++ l2) = countKind k l1 + countKind k l2 := by
  simp [countKind, List.filter_append]

theorem countKind_flatMap_zero (dup : Bool) (k : String) (hk : k ≠ "content")
    (l : List (String × Payload)) (h : ∀ e ∈ l, normEvent e.1 ≠ k) :
    countKind k (l.flatMap (pairExpandDup dup)) = 0 := by
  induction l with
  | nil => rfl
  | cons e es ih =>
    rw [List.flatMap_cons, countKind_append,
      ih (fun x hx => h x (List.mem_cons_of_mem e hx))]
    have he := h e (List.mem_cons_self e es)
    have hdupPart : countKind k (if normEvent e.1 = "reasoning" && dup
        then [(("content" : String), e.2)] else []) = 0 := by
      split
      · simp [countKind, Ne.symm hk]
      · rfl
    simp only [pairExpandDup, countKind_append, hdupPart]
    simp [countKind, he]

/-- Every event of the `sglang_stream` loop maps to a non-`done`, non-`error`
kind under normalization. -/
theorem sglangRun_norm_ne (cfg : GenConfig) (deltas : List Delta) (k : String)
    (h1 : "reasoning" ≠ k) (h2 : "ttft" ≠ k) (h3 : "content" ≠ k) :
    ∀ e ∈ (sglangRun (initGenState cfg) deltas).2, normEvent e.1 ≠ k := by
  intro e he
  obtain ⟨-, -, hmem⟩ := sglangRun_spec deltas (initGenState cfg)
  rcases hmem e he with hm | hm | hm <;>
    rw [normEvent_id_of_gen_label (by rw [hm]; simp), hm] <;> assumption

/-- C1 (amended): the producer always terminates the queue with the close
marker, enqueued exactly once, directly preceded by its own terminal `done`
event; when the generation call raises mid-stream the consumer sees the
already-produced prefix, then exactly one `error` event, then exactly one
`done` event; but when the generation stream completes normally, the
generator's own terminal `done` event is forwarded too, so the consumer sees
TWO `done` events, the producer's terminal one last. -/
theorem C1_amended_stream_termination :
    (∀ (dup : Bool) (events : List (String × Payload)) (raised : Option String),
      (producerItems dup events raised).getLast? = some QItem.close ∧
      (producerItems dup events raised).count QItem.close = 1) ∧
    (∀ (dup : Bool) (cfg : GenConfig) (deltas : List Delta),
      (consumeStream (producerItems dup (sglangEvents cfg deltas) none)).getLast?
        = some ("done", Payload.timingObj) ∧
      countKind "done"
        (consumeStream (producerItems dup (sglangEvents cfg deltas) none)) = 2) ∧
    (∀ (dup : Bool) (cfg : GenConfig) (deltas : List Delta) (cut : Nat) (m : String),
      cut < (sglangEvents cfg deltas).length →
      ∃ pre,
        consumeStream (producerItems dup ((sglangEvents cfg deltas).take cut) (some m))
          = pre ++ [("error", Payload.errObj m), ("done", Payload.timingObj)] ∧
        countKind "done" pre = 0 ∧ countKind "error" pre = 0) := by
  refine ⟨?_, ?_, ?_⟩
  · intro dup events raised
    rw [producerItems_eq]
    constructor
    · exact List.getLast?_concat _
    · rw [List.count_append]
      have h0 : ((producerPairs dup events raised).map
          (fun e => QItem.ev e.1 e.2)).count QItem.close = 0 := by
        rw [List.count_eq_zero]
        intro hmem
        obtain ⟨e, -, habs⟩ := List.mem_map.mp hmem
        exact QItem.noConfusion habs
      rw [h0]
      rfl
  · intro dup cfg deltas
    rw [consumeStream_producerItems]
    constructor
    · show ((sglangEvents cfg deltas).flatMap (pairExpandDup dup)
          ++ producerMid dup (producerLoop dup (sglangEvents cfg deltas) false).2 none
          ++ [("done", Payload.timingObj)]).getLast? = _
      rw [List.append_assoc, List.getLast?_append_of_ne_nil _ (by simp),
        List.getLast?_concat]
    · show countKind "done" ((sglangEvents cfg deltas).flatMap (pairExpandDup dup)
          ++ producerMid dup (producerLoop dup (sglangEvents cfg deltas) false).2 none
          ++ [("done", Payload.timingObj)]) = 2
      rw [countKind_append, countKind_append]
      have hrunPart : countKind "done"
          ((sglangEvents cfg deltas).flatMap (pairExpandDup dup)) = 1 := by
        rw [sglangEvents_eq, List.flatMap_append, countKind_append]
        rw [countKind_flatMap_zero dup "done" (by decide) _
          (sglangRun_norm_ne cfg deltas "done" (by decide) (by decide) (by decide))]
        obtain ⟨a, r, hfin⟩ := sglangFinish_done cfg (sglangRun (initGenState cfg) deltas).1
        rw [hfin]
        show countKind "done" (pairExpandDup dup ("done", Payload.doneObj a r) ++ []) = 1
        have hne : normEvent "done" = "done" := by decide
        have hpair : pairExpandDup dup ("done", Payload.doneObj a r)
            = [(("done" : String), Payload.doneObj a r)] := by
          cases dup <;> simp [pairExpandDup, hne]
        rw [hpair]
        rfl
      rw [hrunPart]
      have hmid : countKind "done"
          (producerMid dup (producerLoop dup (sglangEvents cfg deltas) false).2 none) = 0 := by
        simp only [producerMid]
        split
        · rfl
        · rfl
      rw [hmid]
      rfl
  · intro dup cfg deltas cut m hcut
    rw [consumeStream_producerItems]
    refine ⟨((sglangEvents cfg deltas).take cut).flatMap (pairExpandDup dup), ?_, ?_, ?_⟩
    · show ((sglangEvents cfg deltas).take cut).flatMap (pairExpandDup dup)
          ++ producerMid dup
              (producerLoop dup ((sglangEvents cfg deltas).take cut) false).2 (some m)
          ++ [("done", Payload.timingObj)] = _
      rw [List.append_assoc]
      rfl
    · have hsub : ∀ e ∈ (sglangEvents cfg deltas).take cut,
          normEvent e.1 ≠ "done" := by
        intro e he
        have hle : cut ≤ (sglangRun (initGenState cfg) deltas).2.length := by
          have := hcut
          rw [sglangEvents_eq] at this
          simp only [List.length_append, List.length_cons, List.length_nil] at this
          omega
        rw [sglangEvents_eq, List.take_append_of_le_length hle] at he
        exact sglangRun_norm_ne cfg deltas "done" (by decide) (by decide) (by decide) e
          (List.take_subset cut _ he)
      exact countKind_flatMap_zero dup "done" (by decide) _ hsub
    · have hsub : ∀ e ∈ (sglangEvents cfg deltas).take cut,
          normEvent e.1 ≠ "error" := by
        intro e he
        have hle : cut ≤ (sglangRun (initGenState cfg) deltas).2.length := by
          have := hcut
          rw [sglangEvents_eq] at this
          simp only [List.length_append, List.length_cons, List.length_nil] at this
          omega
        rw [sglangEvents_eq, List.take_append_of_le_length hle] at he
        exact sglangRun_norm_ne cfg deltas "error" (by decide) (by decide) (by decide) e
          (List.take_subset cut _ he)
      exact countKind_flatMap_zero dup "error" (by decide) _ hsub

/-- C1 amended witness: the amended theorem applied at concrete streams — an
arbitrary event list, a normally-completing single-content stream (two `done`
events), and the same stream cut after its `ttft`/`content` events by a raise
(one `error`, one `done`). -/
theorem C1_amended_stream_termination_witness :
    ((producerItems false [("content", Payload.text "hi")] none).getLast?
        = some QItem.close ∧
      (producerItems false [("content", Payload.text "hi")] none).count QItem.close = 1) ∧
    ((consumeStream (producerItems false
        (sglangEvents ⟨false, "<<<FINAL>>>", "keep_all", false⟩ [⟨none, some "hi"⟩])
        none)).getLast? = some ("done", Payload.timingObj) ∧
      countKind "done" (consumeStream (producerItems false
        (sglangEvents ⟨false, "<<<FINAL>>>", "keep_all", false⟩ [⟨none, some "hi"⟩])
        none)) = 2) ∧
    (∃ pre,
      consumeStream (producerItems false
          ((sglangEvents ⟨false, "<<<FINAL>>>", "keep_all", false⟩
            [⟨none, some "hi"⟩]).take 2) (some "boom"))
        = pre ++ [("error", Payload.errObj "boom"), ("done", Payload.timingObj)] ∧
      countKind "done" pre = 0 ∧ countKind "error" pre = 0) :=
  ⟨C1_amended_stream_termination.1 false [("content", Payload.text "hi")] none,
    C1_amended_stream_termination.2.1 false ⟨false, "<<<FINAL>>>", "keep_all", false⟩
      [⟨none, some "hi"⟩],
    C1_amended_stream_termination.2.2 false ⟨false, "<<<FINAL>>>", "keep_all", false⟩
      [⟨none, some "hi"⟩] 2 "boom" (by decide)⟩

/-! ### Machinery for the amended reveal-filter claim -/

/-- Concatenation of a list of streamed chunks. -/
def strConcat (cs : List String) : String :=
  cs.foldr (fun a b => a ++ b) ""

theorem strConcat_cons (c : String) (cs : List String) :
    strConcat (c :: cs) = c ++ strConcat cs := rfl

/-- Feeding a list of chunks through the reveal buffer, collecting the
emitted text of each `add` call. -/
def feedAll (b : RevealFromBuffer) : List String → RevealFromBuffer × List String
  | [] => (b, [])
  | c :: cs =>
    let out := b.add c
    let rest := feedAll out.1 cs
    (rest.1, out.2 :: rest.2)

theorem feedAll_append (b : RevealFromBuffer) (xs ys : List String) :
    feedAll b (xs ++ ys)
      = ((feedAll (feedAll b xs).1 ys).1,
          (feedAll b xs).2 ++ (feedAll (feedAll b xs).1 ys).2) := by
  induction xs generalizing b with
  | nil => rfl
  | cons x xs ih => simp [feedAll, ih]

theorem startsWithL_nil_pat (l : List Char) : startsWithL l [] = true := by
  cases l <;> rfl

theorem startsWithL_append_left (p l1 l2 : List Char)
    (h : startsWithL l1 p = true) : startsWithL (l1 ++ l2) p = true := by
  induction p generalizing l1 with
  | nil => exact startsWithL_nil_pat _
  | cons q qs ih =>
    cases l1 with
    | nil => exact absurd h (by simp [startsWithL])
    | cons c cs =>
      rw [startsWithL] at h
      rw [List.cons_append, startsWithL]
      rw [Bool.and_eq_true] at h ⊢
      exact ⟨h.1, ih cs h.2⟩

theorem occursInL_append_left (p l1 l2 : List Char)
    (h : occursInL p l1 = true) : occursInL p (l1 ++ l2) = true := by
  induction l1 with
  | nil =>
    rw [occursInL] at h
    cases l2 with
    | nil => exact h
    | cons c cs =>
      rw [List.nil_append, occursInL]
      have hp : p = [] := by simpa [List.isEmpty_iff] using h
      subst hp
      rfl
  | cons c cs ih =>
    rw [occursInL, Bool.or_eq_true] at h
    rw [List.cons_append, occursInL, Bool.or_eq_true]
    rcases h with h | h
    · exact Or.inl (by
        have := startsWithL_append_left p (c :: cs) l2 h
        simpa using this)
    · exact Or.inr (ih h)

/-- While the token has not occurred in the accumulated input, every `add`
call withholds its chunk (emits `""`) and only grows the buffer. -/
theorem feedAll_no_token (token : String) :
    ∀ (cs : List String) (buf : String),
      occursInL token.data (buf ++ strConcat cs).data = false →
      feedAll ⟨token, buf, false⟩ cs
        = (⟨token, buf ++ strConcat cs, false⟩, cs.map (fun _ => "")) := by
  intro cs
  induction cs with
  | nil =>
    intro buf h
    simp [feedAll, strConcat]
  | cons c cs ih =>
    intro buf h
    have hpre : occursInL token.data (buf.data ++ c.data) = false := by
      rcases hocc : occursInL token.data (buf.data ++ c.data) with _ | _
      · rfl
      · exfalso
        have htot : occursInL token.data ((buf.data ++ c.data) ++ (strConcat cs).data)
            = true := occursInL_append_left _ _ _ hocc
        rw [strConcat_cons] at h
        simp only [String.data_append] at h
        rw [List.append_assoc] at htot
        rw [htot] at h
        exact Bool.noConfusion h
    have hadd : RevealFromBuffer.add ⟨token, buf, false⟩ c
        = (⟨token, buf ++ c, false⟩, "") := by
      simp [RevealFromBuffer.add, hpre]
    simp only [feedAll, hadd]
    have hrest := ih (buf ++ c) (by
      rw [strConcat_cons] at h
      simpa [String.append_assoc] using h)
    rw [hrest]
    simp [strConcat_cons, String.append_assoc]

/-- On the feed call in which the token first occurs in the accumulated
buffer, the buffer emits exactly the suffix after the FIRST occurrence and
flips to revealed. -/
theorem feedAll_detect (token : String) (cs : List String) (c : String)
    (h1 : occursInL token.data (strConcat cs).data = false)
    (h2 : occursInL token.data ((strConcat cs).data ++ c.data) = true) :
    (feedAll (RevealFromBuffer.init token) (cs ++ [c])).2
      = cs.map (fun _ => "")
        ++ [⟨(afterFirstL token.data ((strConcat cs).data ++ c.data)).getD []⟩] ∧
    (feedAll (RevealFromBuffer.init token) (cs ++ [c])).1.revealed = true := by
  have hfeed := feedAll_no_token token cs "" (by simpa using h1)
  rw [feedAll_append]
  have hinit : RevealFromBuffer.init token = ⟨token, "", false⟩ := rfl
  rw [hinit, hfeed]
  simp only [String.empty_append]
  have hadd : RevealFromBuffer.add ⟨token, strConcat cs, false⟩ c
      = (⟨token, "", true⟩,
          ⟨(afterFirstL token.data ((strConcat cs).data ++ c.data)).getD []⟩) := by
    simp [RevealFromBuffer.add, h2]
  simp [feedAll, hadd]

/-- C3 (amended): the STREAMING reveal buffer behaves as the claim states —
all chunks are withheld (each feed returns `""`) while the sentinel has not
occurred in the accumulated buffer; on the feed in which it first occurs the
buffer returns everything after the FIRST occurrence and flips to revealed;
once revealed every subsequent chunk passes through unchanged; the spec's
concrete example emits `""` then `" suffix"`.  The NON-STREAMING filter,
however, keys on the LAST occurrence of the sentinel (stripping whitespace):
on `"a<<<FINAL>>>b<<<FINAL>>>c"` it returns `"c"`, for every fallback
policy. -/
theorem C3_amended_reveal_filter :
    (∀ (token : String) (cs : List String),
      occursInL token.data (strConcat cs).data = false →
      (feedAll (RevealFromBuffer.init token) cs).2 = cs.map (fun _ => "") ∧
      (feedAll (RevealFromBuffer.init token) cs).1 = ⟨token, strConcat cs, false⟩) ∧
    (∀ (token : String) (cs : List String) (c : String),
      occursInL token.data (strConcat cs).data = false →
      occursInL token.data ((strConcat cs).data ++ c.data) = true →
      (feedAll (RevealFromBuffer.init token) (cs ++ [c])).2
        = cs.map (fun _ => "")
          ++ [⟨(afterFirstL token.data ((strConcat cs).data ++ c.data)).getD []⟩] ∧
      (feedAll (RevealFromBuffer.init token) (cs ++ [c])).1.revealed = true) ∧
    (∀ (b : RevealFromBuffer) (chunk : String),
      b.revealed = true → b.add chunk = (b, chunk)) ∧
    ((feedAll (RevealFromBuffer.init "<<<FINAL>>>")
        ["prefix ", "<<<FINAL>>> suffix"]).2 = ["", " suffix"] ∧
      ∀ s : String,
        ((feedAll (RevealFromBuffer.init "<<<FINAL>>>")
          ["prefix ", "<<<FINAL>>> suffix"]).1.add s).2 = s) ∧
    (∀ fallback : String,
      applyRevealFromFilter true "a<<<FINAL>>>b<<<FINAL>>>c" "<<<FINAL>>>" fallback
        = "c") := by
  refine ⟨?_, ?_, ?_, ⟨by decide, ?_⟩, ?_⟩
  · intro token cs h
    have hfeed := feedAll_no_token token cs "" (by simpa using h)
    have hinit : RevealFromBuffer.init token = ⟨token, "", false⟩ := rfl
    rw [hinit, hfeed]
    simp
  · intro token cs c h1 h2
    exact feedAll_detect token cs c h1 h2
  · intro b chunk h
    simp [RevealFromBuffer.add, h]
  · intro s
    have hrev : (feedAll (RevealFromBuffer.init "<<<FINAL>>>")
        ["prefix ", "<<<FINAL>>> suffix"]).1.revealed = true := by decide
    simp [RevealFromBuffer.add, hrev]
  · intro fallback
    have hocc : occursInL "<<<FINAL>>>".data "a<<<FINAL>>>b<<<FINAL>>>c".data = true := by
      decide
    simp only [applyRevealFromFilter, Bool.not_true]
    rw [if_neg (by decide), if_pos hocc]
    decide

/-- C3 amended witness: the general streaming clauses applied at concrete
chunk sequences (two withheld chunks; the spec example's detection feed; a
revealed buffer passing a chunk through). -/
theorem C3_amended_reveal_filter_witness :
    ((feedAll (RevealFromBuffer.init "<<<FINAL>>>") ["chunk1 ", "chunk2 "]).2
        = ["", ""] ∧
      (feedAll (RevealFromBuffer.init "<<<FINAL>>>") ["chunk1 ", "chunk2 "]).1
        = ⟨"<<<FINAL>>>", strConcat ["chunk1 ", "chunk2 "], false⟩) ∧
    ((feedAll (RevealFromBuffer.init "<<<FINAL>>>")
        (["prefix "] ++ ["<<<FINAL>>> suffix"])).2
      = ["prefix "].map (fun _ => "")
        ++ [⟨(afterFirstL "<<<FINAL>>>".data
            ((strConcat ["prefix "]).data ++ "<<<FINAL>>> suffix".data)).getD []⟩] ∧
      (feedAll (RevealFromBuffer.init "<<<FINAL>>>")
        (["prefix "] ++ ["<<<FINAL>>> suffix"])).1.revealed = true) ∧
    RevealFromBuffer.add ⟨"<<<FINAL>>>", "", true⟩ "chunk3"
      = (⟨"<<<FINAL>>>", "", true⟩, "chunk3") := by
  refine ⟨?_, ?_, ?_⟩
  · exact C3_amended_reveal_filter.1 "<<<FINAL>>>" ["chunk1 ", "chunk2 "] (by decide)
  · exact C3_amended_reveal_filter.2.1 "<<<FINAL>>>" ["prefix "] "<<<FINAL>>> suffix"
      (by decide) (by decide)
  · exact C3_amended_reveal_filter.2.2.1 ⟨"<<<FINAL>>>", "", true⟩ "chunk3" rfl
